import Mathlib

/-!
# Verification model of the `schedule_modes` integration

Shallow embedding of `custom_components/schedule_modes/switch.py` and
`custom_components/schedule_modes/calendar.py`.

Conventions of the embedding:
* Instants are modelled as `Int` milliseconds (the code uses tz-aware
  `datetime`s; only ordering and differences matter to the verified
  properties, and the `remaining > 1` seconds comparison in the restore
  path becomes `> 1000` milliseconds).
* Home Assistant service calls issued with `blocking=False` are collected
  as a command list; state reads inside one `_tick` are frozen at their
  pre-tick values (the scheduled service tasks have not run yet).
* A service call `switch.turn_on` / `switch.turn_off` with empty service
  data reaches `ModeSwitch.async_turn_on` / `async_turn_off` with empty
  `kwargs`, hence `controlled_by` defaults to `"manual"` and `minutes` is
  absent.
-/

namespace ScheduleModes

/-- The `controlled_by` provenance tags used by `ModeSwitch`. -/
inductive ControlledBy
  | manual
  | calendar
  | timer
  | autoReset
  | restore
  deriving DecidableEq, Repr

/-- State of one `ModeSwitch` entity (`switch.py`).
`timerFireAt` models the single armed `async_call_later` handle
(`_unsub_timer`): `some t` means a timer is armed to fire at instant `t`
(ms); `none` means no armed timer. -/
structure SwitchState where
  isOn : Bool
  expireAt : Option Int
  controlledBy : ControlledBy
  timerFireAt : Option Int
  defaultMinutes : Int
  deriving DecidableEq, Repr

/-- `ModeSwitch._start_timer(seconds)`: arms `async_call_later` with
`delay = max(1.0, seconds)` ("Guard against negative/zero scheduling").
In milliseconds the timer fires at `now + max 1000 delayMs`. -/
def startTimer (now delayMs : Int) (s : SwitchState) : SwitchState :=
  { s with timerFireAt := some (now + max 1000 delayMs) }

/-- `ModeSwitch._schedule_expiration(minutes)`: cancels any armed timer,
then for `minutes <= 0` clears `expire_at` (indefinite ON), otherwise sets
`expire_at = now + minutes` and arms the timer for that duration
(cancel-then-insert). -/
def scheduleExpiration (now minutes : Int) (s : SwitchState) : SwitchState :=
  let s1 := { s with timerFireAt := none }
  if minutes ≤ 0 then
    { s1 with expireAt := none }
  else
    let exp := now + minutes * 60000
    startTimer now (exp - now) { s1 with expireAt := some exp }

/-- The `minutes` keyword of `ModeSwitch.async_turn_on`:
`none` = key absent from `kwargs`, `some none` = key present with value
`None`, `some (some m)` = key present with integer value `m`. -/
abbrev MinutesArg := Option (Option Int)

/-- `ModeSwitch.async_turn_on(**kwargs)`: sets `_is_on = True`,
`_controlled_by = kwargs.get("controlled_by", "manual")`, and calls
`_schedule_expiration(int(minutes) if minutes is not None else 0)` where
`minutes = kwargs.get("minutes", self._default_minutes)`. -/
def asyncTurnOn (now : Int) (cb : ControlledBy) (minutes : MinutesArg)
    (s : SwitchState) : SwitchState :=
  let m : Int :=
    match minutes with
    | none => s.defaultMinutes
    | some none => 0
    | some (some k) => k
  scheduleExpiration now m { s with isOn := true, controlledBy := cb }

/-- `ModeSwitch.async_turn_off(**kwargs)`: clears `_is_on`, sets
`_controlled_by = kwargs.get("controlled_by", "manual")`, clears
`_expire_at` and cancels any armed timer. -/
def asyncTurnOff (cb : ControlledBy) (s : SwitchState) : SwitchState :=
  { s with isOn := false, controlledBy := cb,
           expireAt := none, timerFireAt := none }

/-- The armed timer's callback `_cb` in `_start_timer`: it runs
`async_turn_off(controlled_by="timer")`. -/
def timerFire (s : SwitchState) : SwitchState :=
  asyncTurnOff .timer s

/-- The persisted record restored by `async_get_last_state`: state string
(`is_on`), the `expires_at` attribute and the `controlled_by` attribute. -/
structure PersistedSwitch where
  isOn : Bool
  expiresAt : Option Int
  controlledBy : ControlledBy
  deriving DecidableEq, Repr

/-- Result of `ModeSwitch.async_added_to_hass`: the switch state after
restore together with the `_restored_on` flag. -/
structure RestoredSwitch where
  state : SwitchState
  restoredOn : Bool
  deriving DecidableEq, Repr

/-- `ModeSwitch.async_added_to_hass` restore logic (`switch.py` lines
97-143).  `last = none` models no previous state; otherwise the persisted
values are loaded, and for an ON state: `expire_at` absent keeps an
indefinite ON; `expire_at > now` with more than one second remaining
re-arms the timer for the remaining duration; otherwise the switch is
turned off immediately ("Expired essentially now" / "Expired while HA was
down"). -/
def restoreOnStart (now dm : Int) (last : Option PersistedSwitch) :
    RestoredSwitch :=
  match last with
  | none =>
      ⟨{ isOn := false, expireAt := none, controlledBy := .manual,
         timerFireAt := none, defaultMinutes := dm }, false⟩
  | some p =>
      let s : SwitchState :=
        { isOn := p.isOn, expireAt := p.expiresAt,
          controlledBy := p.controlledBy, timerFireAt := none,
          defaultMinutes := dm }
      if s.isOn then
        match s.expireAt with
        | none => ⟨s, true⟩
        | some e =>
            if e > now then
              let remaining := e - now
              if remaining > 1000 then
                ⟨startTimer now remaining s, true⟩
              else
                ⟨{ s with isOn := false, expireAt := none }, false⟩
            else
              ⟨{ s with isOn := false, expireAt := none }, false⟩
      else ⟨s, false⟩

/-! ## Event store (`calendar.py`) -/

/-- The keys of an event's `extra` dict that the Cross-Mode Link reads and
writes (`linked_from_bris`, `bris_event_uid`).  Other opaque `extra` keys
play no role in any verified property and are not modelled. -/
structure EventExtra where
  linkedFromBris : Bool
  brisEventUid : Option String
  deriving DecidableEq, Repr

/-- The `extra` bag of an event created without link metadata. -/
def EventExtra.empty : EventExtra := ⟨false, none⟩

/-- One stored calendar event.  `start`/`stop` embed the `start`/`end` ISO
strings after `dt_util.parse_datetime`: `none` models a missing or
unparsable endpoint, `some t` a parsed instant (ms).  (`stop` stands for
the source's `end` field, which is a reserved word here.)  The `summary`,
`created` and `description` fields do not influence any verified
property; `created` and `description` are therefore omitted. -/
structure CalEvent where
  uid : String
  modeKey : String
  start : Option Int
  stop : Option Int
  summary : String
  extra : EventExtra
  deriving DecidableEq, Repr

/-- `ModeCalendar._my_events`: the events of this calendar's mode. -/
def myEvents (modeKey : String) (events : List CalEvent) : List CalEvent :=
  events.filter (fun e => e.modeKey == modeKey)

/-- Outcome labels for a store mutation, following the spec vocabulary of
§7; each label corresponds to one early-return branch of the source:
`validationError` = the "missing/invalid start/end" / "invalid range" /
"empty uid" / "invalid event data" returns, `notFound` = the "not found"
returns, `policyError` = the "linked from a Bris event" returns. -/
inductive MutResult
  | ok
  | validationError
  | notFound
  | policyError
  deriving DecidableEq, Repr

/-- Result of a store mutation: the resulting event list, the list of
store snapshots published via `async_dispatcher_send(SIGNAL_EVENTS_UPDATED,
...)` in order, and the outcome label. -/
structure MutOutcome where
  events : List CalEvent
  published : List (List CalEvent)
  result : MutResult
  deriving DecidableEq, Repr

/-- `ModeCalendar._sync_bris_to_no_tachnun_create`: when the link option
is enabled and this calendar is `bris`, append one `no_tachnun` event
mirroring the bris event's window, with summary `"Bris: " + summary` and
link metadata, then persist and publish. -/
def syncBrisToNoTachnunCreate (linkEnabled : Bool) (modeKey ntUid : String)
    (brisEvent : CalEvent) (events : List CalEvent) :
    List CalEvent × List (List CalEvent) :=
  if !linkEnabled then (events, [])
  else if modeKey ≠ "bris" then (events, [])
  else
    let ntEvent : CalEvent :=
      { uid := ntUid, modeKey := "no_tachnun",
        start := brisEvent.start, stop := brisEvent.stop,
        summary := "Bris: " ++ brisEvent.summary,
        extra := ⟨true, some brisEvent.uid⟩ }
    let s := events ++ [ntEvent]
    (s, [s])

/-- `ModeCalendar._add_event_internal`: append the new event, persist,
publish the new list, then (for a `bris` calendar) run the create sync.
`uid` and `ntUid` stand for the two `uuid.uuid4()` draws. -/
def addEventInternal (linkEnabled : Bool) (modeKey uid ntUid : String)
    (startIso stopIso : Int) (summary : String) (events : List CalEvent) :
    MutOutcome :=
  let ev : CalEvent :=
    ⟨uid, modeKey, some startIso, some stopIso, summary, EventExtra.empty⟩
  let s1 := events ++ [ev]
  let p :=
    if modeKey == "bris" then
      syncBrisToNoTachnunCreate linkEnabled modeKey ntUid ev s1
    else (s1, [])
  ⟨p.1, [s1] ++ p.2, .ok⟩

/-- `ModeCalendar.async_create_event` after endpoint coercion: `start` and
`stop` are the results of `_coerce_endpoint`/`parse_datetime` on the
payload (`none` = missing or malformed).  A missing endpoint or a range
with `end <= start` is rejected with no mutation. -/
def asyncCreateEvent (linkEnabled : Bool) (modeKey uid ntUid : String)
    (start stop : Option Int) (summary : String) (events : List CalEvent) :
    MutOutcome :=
  match start, stop with
  | some st, some en =>
      if en ≤ st then ⟨events, [], .validationError⟩
      else addEventInternal linkEnabled modeKey uid ntUid st en summary events
  | _, _ => ⟨events, [], .validationError⟩

/-- The update payload after endpoint coercion.  An outer `none` means
the key is absent from the payload (field untouched); `some v` means the
key is present and `_coerce_endpoint` returned `v` (which is `none` for a
malformed value — the source assigns that `None` into the stored event).
The `description` merge and the opaque-`extra` merge of the source have no
bearing on any verified property and are not modelled. -/
structure UpdatePayload where
  summary : Option String
  start : Option (Option Int)
  stop : Option (Option Int)
  deriving DecidableEq, Repr

/-- The field merge performed on the matched event inside
`async_update_event` (summary, then start/end; no validation of the
resulting range). -/
def applyUpdate (data : UpdatePayload) (e : CalEvent) : CalEvent :=
  let e1 := match data.summary with
    | some s => { e with summary := s }
    | none => e
  let e2 := match data.start with
    | some v => { e1 with start := v }
    | none => e1
  match data.stop with
  | some v => { e2 with stop := v }
  | none => e2

/-- Result of the first-match scan of `async_update_event`'s `for` loop. -/
inductive UpdateScan
  | notFound
  | policy
  | updated (events : List CalEvent) (newEvent : CalEvent)
  deriving DecidableEq, Repr

/-- The `for e in self._events_all` loop of `async_update_event`: the
first event matching `uid` and `mode_key` is processed and the loop
returns; a linked `no_tachnun` event is refused before any field merge. -/
def scanUpdate (modeKey uid : String) (data : UpdatePayload) :
    List CalEvent → UpdateScan
  | [] => .notFound
  | e :: rest =>
      if e.uid == uid && e.modeKey == modeKey then
        if modeKey == "no_tachnun" && e.extra.linkedFromBris then .policy
        else
          let e2 := applyUpdate data e
          .updated (e2 :: rest) e2
      else
        match scanUpdate modeKey uid data rest with
        | .notFound => .notFound
        | .policy => .policy
        | .updated l ne => .updated (e :: l) ne

/-- `ModeCalendar._sync_bris_to_no_tachnun_update`: find the first
`no_tachnun` event whose `extra.bris_event_uid` equals the bris uid and
mirror start/end/summary onto it; `none` if there is none (log and
no-op, never recreate). -/
def mirrorLinked (newBris : CalEvent) :
    List CalEvent → Option (List CalEvent)
  | [] => none
  | e :: rest =>
      if e.modeKey == "no_tachnun" &&
          e.extra.brisEventUid == some newBris.uid then
        some ({ e with
                start := newBris.start,
                stop := newBris.stop,
                summary := "Bris: " ++ newBris.summary } :: rest)
      else
        match mirrorLinked newBris rest with
        | some rest2 => some (e :: rest2)
        | none => none

/-- The guard-and-mirror body of `_sync_bris_to_no_tachnun_update`,
returning the new store and its published snapshots. -/
def syncBrisToNoTachnunUpdate (linkEnabled : Bool) (modeKey : String)
    (newBris : CalEvent) (events : List CalEvent) :
    List CalEvent × List (List CalEvent) :=
  if !linkEnabled then (events, [])
  else if modeKey ≠ "bris" then (events, [])
  else
    match mirrorLinked newBris events with
    | some s => (s, [s])
    | none => (events, [])

/-- `ModeCalendar.async_update_event`: empty uid and empty payload are
rejected; otherwise the first matching event is updated in place (policy
check first), the store is persisted and published, and for a `bris`
calendar the update sync runs afterwards. -/
def asyncUpdateEvent (linkEnabled : Bool) (modeKey uid : String)
    (data : UpdatePayload) (events : List CalEvent) : MutOutcome :=
  if uid == "" then ⟨events, [], .validationError⟩
  else if data = ⟨none, none, none⟩ then ⟨events, [], .validationError⟩
  else
    match scanUpdate modeKey uid data events with
    | .notFound => ⟨events, [], .notFound⟩
    | .policy => ⟨events, [], .policyError⟩
    | .updated s1 newEvent =>
        let p :=
          if modeKey == "bris" then
            syncBrisToNoTachnunUpdate linkEnabled modeKey newEvent s1
          else (s1, [])
        ⟨p.1, [s1] ++ p.2, .ok⟩

/-- The first-match lookup used by `async_delete_event` to find the event
to delete. -/
def lookupEvent (modeKey uid : String) : List CalEvent → Option CalEvent
  | [] => none
  | e :: rest =>
      if e.uid == uid && e.modeKey == modeKey then some e
      else lookupEvent modeKey uid rest

/-- `ModeCalendar._sync_bris_to_no_tachnun_delete`: when the link option
is enabled and this calendar is `bris`, remove every `no_tachnun` event
linked to the deleted bris uid; persist and publish only if something was
removed. -/
def syncBrisToNoTachnunDelete (linkEnabled : Bool) (modeKey : String)
    (brisEvent : CalEvent) (events : List CalEvent) :
    List CalEvent × List (List CalEvent) :=
  if !linkEnabled then (events, [])
  else if modeKey ≠ "bris" then (events, [])
  else
    let filtered := events.filter (fun e =>
      !(e.modeKey == "no_tachnun" &&
        e.extra.brisEventUid == some brisEvent.uid))
    if filtered.length < events.length then (filtered, [filtered])
    else (events, [])

/-- `ModeCalendar.async_delete_event`: empty uid rejected; absent uid is a
logged no-op; a linked `no_tachnun` event is refused; otherwise every
event with this uid and mode is removed, the store is persisted and
published, and for a `bris` calendar the delete sync runs afterwards. -/
def asyncDeleteEvent (linkEnabled : Bool) (modeKey uid : String)
    (events : List CalEvent) : MutOutcome :=
  if uid == "" then ⟨events, [], .validationError⟩
  else
    match lookupEvent modeKey uid events with
    | none => ⟨events, [], .notFound⟩
    | some deletedEvent =>
        if modeKey == "no_tachnun" && deletedEvent.extra.linkedFromBris then
          ⟨events, [], .policyError⟩
        else
          let s1 := events.filter (fun e =>
            !(e.uid == uid && e.modeKey == modeKey))
          let p :=
            if modeKey == "bris" then
              syncBrisToNoTachnunDelete linkEnabled modeKey deletedEvent s1
            else (s1, [])
          ⟨p.1, [s1] ++ p.2, .ok⟩

/-! ## Reconciliation tick (`ModeCalendar._tick`) -/

/-- Service calls a tick can issue (all with `blocking=False` and empty
service data): turn this mode's switch on/off, or turn the No Tachnun
switch on/off from the link branch. -/
inductive SwitchCmd
  | turnOnSw
  | turnOffSw
  | turnOnNt
  | turnOffNt
  deriving DecidableEq, Repr

/-- Accumulator of the `for e in self._my_events()` loop in `_tick`:
the `active` and `next_up` locals and the service calls issued so far. -/
structure TickScan where
  active : Option CalEvent
  nextUp : Option (Int × CalEvent)
  cmds : List SwitchCmd
  deriving DecidableEq, Repr

/-- The `st > now and (not next_up or st < next_up[0])` guard. -/
def beatsNext (st : Int) : Option (Int × CalEvent) → Bool
  | none => true
  | some p => decide (st < p.1)

/-- One iteration of the `_tick` event loop: events with an unparsable
endpoint are skipped; `st <= now < en` records the event as `active` and
(override off, switch read as off) issues `turn_on`; otherwise a strictly
future start may become `next_up`; independently, `now >= en` with the
switch read as on (override off) issues `turn_off`.  `calendarOverrideOn`
and `swOn` are the frozen pre-tick reads of the override switch and mode
switch states. -/
def tickScanEvent (now : Int) (calendarOverrideOn swOn : Bool)
    (acc : TickScan) (e : CalEvent) : TickScan :=
  match e.start, e.stop with
  | some st, some en =>
      let acc1 :=
        if decide (st ≤ now) && decide (now < en) then
          { acc with
            active := some e,
            cmds := acc.cmds ++
              (if !calendarOverrideOn && !swOn then [SwitchCmd.turnOnSw]
               else []) }
        else if decide (st > now) && beatsNext st acc.nextUp then
          { acc with nextUp := some (st, e) }
        else acc
      if !calendarOverrideOn && swOn && decide (now ≥ en) then
        { acc1 with cmds := acc1.cmds ++ [SwitchCmd.turnOffSw] }
      else acc1
  | _, _ => acc

/-- The whole `for` loop of `_tick` over a list of events. -/
def tickScanList (now : Int) (ov swOn : Bool) :
    List CalEvent → TickScan → TickScan
  | [], acc => acc
  | e :: rest, acc =>
      tickScanList now ov swOn rest (tickScanEvent now ov swOn acc e)

/-- The loop of `_tick` over this mode's events, started from the empty
accumulator. -/
def tickScan (modeKey : String) (now : Int) (ov swOn : Bool)
    (events : List CalEvent) : TickScan :=
  tickScanList now ov swOn (myEvents modeKey events) ⟨none, none, []⟩

/-- All switch service calls issued by one `_tick` for its own mode's
switch: the loop's calls followed by the trailing
"if no active event and switch is on, turn it off" call. -/
def tickCmds (modeKey : String) (now : Int) (ov swOn : Bool)
    (events : List CalEvent) : List SwitchCmd :=
  let scan := tickScan modeKey now ov swOn events
  if scan.active.isNone && !ov && swOn then scan.cmds ++ [.turnOffSw]
  else scan.cmds

/-- Effect of the tick's service calls on this mode's `ModeSwitch`.
`switch.turn_on` / `switch.turn_off` are called with empty service data,
so they reach `async_turn_on` / `async_turn_off` with empty `kwargs`. -/
def applySwitchCmd (now : Int) (s : SwitchState) : SwitchCmd → SwitchState
  | .turnOnSw => asyncTurnOn now .manual none s
  | .turnOffSw => asyncTurnOff .manual s
  | .turnOnNt => s
  | .turnOffNt => s

/-- Effect of a command list on this mode's switch, in issue order. -/
def applySwitchCmds (now : Int) (s : SwitchState) (cs : List SwitchCmd) :
    SwitchState :=
  cs.foldl (applySwitchCmd now) s

/-! ## The Bris → No Tachnun link branch of `_tick` -/

/-- World visible to the link branch: the No Tachnun switch's state as
read (`ntOn`), the `ModeCalendar._linked_nt_on` flag, and a ghost
provenance bit `ntManual` recording whether the current state of the
No Tachnun switch was last set by a manual command (used only to state the
claim; the code never reads it). -/
structure LinkWorld where
  ntOn : Bool
  ntManual : Bool
  linkedNtOn : Bool
  deriving DecidableEq, Repr

/-- The link branch of `_tick` (`calendar.py` lines 544-565) with the
link option enabled on the `bris` calendar, composed with the effect of
the service call it issues on the No Tachnun switch: while an active
event exists, a No Tachnun switch not read as on is turned on and
`_linked_nt_on` is set; with no active event, `_linked_nt_on` causes one
`turn_off` (only if the switch is read as on) and is cleared. -/
def linkTickBranch (activeExists : Bool) (w : LinkWorld) :
    LinkWorld × List SwitchCmd :=
  if activeExists then
    if !w.ntOn then
      ({ w with ntOn := true, ntManual := false, linkedNtOn := true },
       [.turnOnNt])
    else (w, [])
  else
    if w.linkedNtOn then
      if w.ntOn then
        ({ w with ntOn := false, linkedNtOn := false }, [.turnOffNt])
      else ({ w with linkedNtOn := false }, [])
    else (w, [])

/-- External actions interleaved with link ticks: a tick of the bris
calendar (with or without an active bris event), and manual No Tachnun
commands issued independently of the link. -/
inductive LinkAct
  | tick (activeExists : Bool)
  | manualOn
  | manualOff
  deriving DecidableEq, Repr

/-- One step of the link world. -/
def linkStep (w : LinkWorld) : LinkAct → LinkWorld × List SwitchCmd
  | .tick a => linkTickBranch a w
  | .manualOn => ({ w with ntOn := true, ntManual := true }, [])
  | .manualOff => ({ w with ntOn := false }, [])

/-- Run a sequence of link-world actions, collecting issued commands. -/
def runLink (w : LinkWorld) : List LinkAct → LinkWorld × List SwitchCmd
  | [] => (w, [])
  | a :: rest =>
      let p := linkStep w a
      let q := runLink p.1 rest
      (q.1, p.2 ++ q.2)

/-! ## Derived descriptions of the tick loop, used to state properties.
These are analysis artifacts: each is proved equal to (or characterises)
the faithful loop above. -/

/-- Whether an event's window contains `now` (`st <= now < en`), with
unparsable endpoints excluded — the test applied by `_tick`'s loop. -/
def activeB (now : Int) (e : CalEvent) : Bool :=
  match e.start, e.stop with
  | some st, some en => decide (st ≤ now) && decide (now < en)
  | _, _ => false

/-- First option if present, otherwise the second. -/
def orO (a b : Option CalEvent) : Option CalEvent :=
  match a with
  | some x => some x
  | none => b

/-- The evolution of the `active` local across the loop. -/
def activeFold (now : Int) (acc : Option CalEvent) :
    List CalEvent → Option CalEvent
  | [] => acc
  | e :: rest => activeFold now (if activeB now e then some e else acc) rest

/-- The strictly-future start of an event, if its endpoints parse and its
start lies strictly after `now` — the candidate test of the `next_up`
branch. -/
def futureStart (now : Int) (e : CalEvent) : Option Int :=
  match e.start, e.stop with
  | some st, some _ => if st > now then some st else none
  | _, _ => none

/-- One `next_up` update of the loop. -/
def stepNext (now : Int) (acc : Option (Int × CalEvent)) (e : CalEvent) :
    Option (Int × CalEvent) :=
  match e.start, e.stop with
  | some st, some _ =>
      if decide (st > now) && beatsNext st acc then some (st, e) else acc
  | _, _ => acc

/-- The evolution of the `next_up` local across the loop. -/
def nextUpFold (now : Int) (acc : Option (Int × CalEvent)) :
    List CalEvent → Option (Int × CalEvent)
  | [] => acc
  | e :: rest => nextUpFold now (stepNext now acc e) rest

/-- The `turn_on` service calls emitted by the loop when the override is
off and the switch was read as off. -/
def onCmds (now : Int) : List CalEvent → List SwitchCmd
  | [] => []
  | e :: rest =>
      (if activeB now e then [SwitchCmd.turnOnSw] else []) ++ onCmds now rest

/-- Modelled from the spec (for comparison with the code's `active`
computation, claim C6): "`active` = the event whose window contains now
(ties: earliest start, then store order)" — among this mode's events whose
window contains `now`, keep the one with the earliest start, preferring
the earlier stored one on equal starts. -/
def activeSpec (modeKey : String) (now : Int) (events : List CalEvent) :
    Option CalEvent :=
  ((myEvents modeKey events).filter (fun e => activeB now e)).foldl
    (fun best e =>
      match best with
      | none => some e
      | some b => if b.start.getD 0 ≤ e.start.getD 0 then some b else some e)
    none

/-- Number of `turn_off` calls addressed to the No Tachnun switch in a
command list. -/
def countOffNt : List SwitchCmd → Nat
  | [] => 0
  | c :: rest => (if c = SwitchCmd.turnOffNt then 1 else 0) + countOffNt rest

/-! ## Helper lemmas about the tick loop -/

theorem tickScanEvent_active (now : Int) (ov sw : Bool) (acc : TickScan)
    (e : CalEvent) :
    (tickScanEvent now ov sw acc e).active =
      if activeB now e then some e else acc.active := by
  obtain ⟨uid, mk, st?, en?, sm, ex⟩ := e
  cases st? <;> cases en? <;>
    simp only [tickScanEvent, activeB, stepNext, futureStart, beatsNext] <;>
    (repeat' split) <;>
    simp_all <;>
    omega

theorem tickScanEvent_nextUp (now : Int) (ov sw : Bool) (acc : TickScan)
    (e : CalEvent) :
    (tickScanEvent now ov sw acc e).nextUp = stepNext now acc.nextUp e := by
  obtain ⟨uid, mk, st?, en?, sm, ex⟩ := e
  cases st? <;> cases en? <;>
    simp only [tickScanEvent, activeB, stepNext, futureStart, beatsNext] <;>
    (repeat' split) <;>
    simp_all <;>
    omega

theorem tickScanEvent_cmds_off (now : Int) (acc : TickScan) (e : CalEvent) :
    (tickScanEvent now false false acc e).cmds =
      acc.cmds ++ (if activeB now e then [SwitchCmd.turnOnSw] else []) := by
  obtain ⟨uid, mk, st?, en?, sm, ex⟩ := e
  cases st? <;> cases en? <;>
    simp only [tickScanEvent, activeB, stepNext, futureStart, beatsNext] <;>
    (repeat' split) <;>
    simp_all <;>
    omega

theorem tickScanList_active (now : Int) (ov sw : Bool) (l : List CalEvent)
    (acc : TickScan) :
    (tickScanList now ov sw l acc).active = activeFold now acc.active l := by
  induction l generalizing acc with
  | nil => rfl
  | cons e rest ih => simp [tickScanList, activeFold, tickScanEvent_active, ih]

theorem tickScanList_nextUp (now : Int) (ov sw : Bool) (l : List CalEvent)
    (acc : TickScan) :
    (tickScanList now ov sw l acc).nextUp = nextUpFold now acc.nextUp l := by
  induction l generalizing acc with
  | nil => rfl
  | cons e rest ih => simp [tickScanList, nextUpFold, tickScanEvent_nextUp, ih]

theorem tickScanList_cmds_off (now : Int) (l : List CalEvent)
    (acc : TickScan) :
    (tickScanList now false false l acc).cmds = acc.cmds ++ onCmds now l := by
  induction l generalizing acc with
  | nil => simp [tickScanList, onCmds]
  | cons e rest ih =>
      simp [tickScanList, onCmds, ih, tickScanEvent_cmds_off]

theorem orO_getLast_cons (t : List CalEvent) (e : CalEvent)
    (acc : Option CalEvent) :
    orO ((e :: t).getLast?) acc = orO t.getLast? (some e) := by
  cases t with
  | nil => rfl
  | cons x t' =>
      rw [List.getLast?_cons_cons]
      cases h : (x :: t').getLast? with
      | none => simp [List.getLast?_eq_none_iff] at h
      | some y => simp [orO]

theorem activeFold_getLast (now : Int) (l : List CalEvent)
    (acc : Option CalEvent) :
    activeFold now acc l =
      orO ((l.filter (fun e => activeB now e)).getLast?) acc := by
  induction l generalizing acc with
  | nil => rfl
  | cons e rest ih =>
      by_cases hb : activeB now e
      · simp only [activeFold, hb, if_pos, List.filter_cons_of_pos hb, ih,
          orO_getLast_cons]
      · simp only [activeFold, hb, if_neg, List.filter_cons_of_neg hb, ih,
          Bool.false_eq_true, ite_false]

theorem stepNext_eq_futureStart (now : Int) (acc : Option (Int × CalEvent))
    (e : CalEvent) :
    stepNext now acc e =
      match futureStart now e with
      | some st => if beatsNext st acc then some (st, e) else acc
      | none => acc := by
  obtain ⟨uid, mk, st?, en?, sm, ex⟩ := e
  cases st? <;> cases en? <;>
    simp only [stepNext, futureStart] <;>
    (repeat' split) <;>
    simp_all <;>
    omega

theorem stepNext_none (now : Int) (acc : Option (Int × CalEvent))
    (e : CalEvent) (h : stepNext now acc e = none) :
    acc = none ∧ futureStart now e = none := by
  rw [stepNext_eq_futureStart] at h
  cases hfs : futureStart now e with
  | none => rw [hfs] at h; exact ⟨h, rfl⟩
  | some st =>
      rw [hfs] at h
      by_cases hb : beatsNext st acc = true
      · simp [hb] at h
      · simp only [Bool.not_eq_true] at hb
        simp [hb] at h
        subst h
        simp [beatsNext] at hb

theorem nextUpFold_none (now : Int) (l : List CalEvent)
    (acc : Option (Int × CalEvent)) (h : nextUpFold now acc l = none) :
    acc = none ∧ ∀ e ∈ l, futureStart now e = none := by
  induction l generalizing acc with
  | nil =>
      refine ⟨by simpa [nextUpFold] using h, ?_⟩
      intro e he; cases he
  | cons e rest ih =>
      rw [nextUpFold] at h
      obtain ⟨h1, h2⟩ := ih _ h
      obtain ⟨ha, hfs⟩ := stepNext_none now acc e h1
      refine ⟨ha, ?_⟩
      intro e' he'
      rcases List.mem_cons.mp he' with rfl | hmem
      · exact hfs
      · exact h2 e' hmem

theorem nextUpFold_some (now : Int) (l : List CalEvent) :
    ∀ (acc : Option (Int × CalEvent)) (st : Int) (e : CalEvent),
      nextUpFold now acc l = some (st, e) →
      (acc = some (st, e) ∨ (e ∈ l ∧ futureStart now e = some st)) ∧
      (∀ p, acc = some p → st ≤ p.1) ∧
      (∀ e' ∈ l, ∀ st', futureStart now e' = some st' → st ≤ st') := by
  induction l with
  | nil =>
      intro acc st e h
      rw [nextUpFold] at h
      subst h
      refine ⟨Or.inl rfl, ?_, ?_⟩
      · intro p hp
        cases hp
        exact le_refl _
      · intro e' he'; cases he'
  | cons e₀ rest ih =>
      intro acc st e h
      rw [nextUpFold] at h
      obtain ⟨hA, hB, hC⟩ := ih (stepNext now acc e₀) st e h
      cases hfs : futureStart now e₀ with
      | none =>
          have hstep : stepNext now acc e₀ = acc := by
            rw [stepNext_eq_futureStart, hfs]
          rw [hstep] at hA hB
          refine ⟨?_, hB, ?_⟩
          · rcases hA with h' | ⟨hm, hf⟩
            · exact Or.inl h'
            · exact Or.inr ⟨List.mem_cons_of_mem _ hm, hf⟩
          · intro e' he' st' hst'
            rcases List.mem_cons.mp he' with rfl | hmem
            · rw [hfs] at hst'; cases hst'
            · exact hC e' hmem st' hst'
      | some st₀ =>
          by_cases hb : beatsNext st₀ acc = true
          · have hstep : stepNext now acc e₀ = some (st₀, e₀) := by
              rw [stepNext_eq_futureStart, hfs]; simp [hb]
            rw [hstep] at hA hB
            have hle₀ : st ≤ st₀ := hB (st₀, e₀) rfl
            refine ⟨?_, ?_, ?_⟩
            · rcases hA with h' | ⟨hm, hf⟩
              · injection h' with h''
                have h1 : st₀ = st := congrArg Prod.fst h''
                have h2 : e₀ = e := congrArg Prod.snd h''
                exact Or.inr ⟨h2 ▸ List.mem_cons_self _ _, h2 ▸ h1 ▸ hfs⟩
              · exact Or.inr ⟨List.mem_cons_of_mem _ hm, hf⟩
            · intro p hp
              subst hp
              have hlt : st₀ < p.1 := by simpa [beatsNext] using hb
              exact le_of_lt (lt_of_le_of_lt hle₀ hlt)
            · intro e' he' st' hst'
              rcases List.mem_cons.mp he' with rfl | hmem
              · rw [hfs] at hst'
                injection hst' with h''
                exact h'' ▸ hle₀
              · exact hC e' hmem st' hst'
          · have hb' : beatsNext st₀ acc = false := by simpa using hb
            have hstep : stepNext now acc e₀ = acc := by
              rw [stepNext_eq_futureStart, hfs]; simp [hb']
            rw [hstep] at hA hB
            have hacc : ∃ p₀, acc = some p₀ ∧ p₀.1 ≤ st₀ := by
              cases hacc' : acc with
              | none => rw [hacc'] at hb'; simp [beatsNext] at hb'
              | some p₀ =>
                  rw [hacc'] at hb'
                  simp only [beatsNext, decide_eq_false_iff_not, not_lt] at hb'
                  exact ⟨p₀, rfl, hb'⟩
            refine ⟨?_, hB, ?_⟩
            · rcases hA with h' | ⟨hm, hf⟩
              · exact Or.inl h'
              · exact Or.inr ⟨List.mem_cons_of_mem _ hm, hf⟩
            · intro e' he' st' hst'
              rcases List.mem_cons.mp he' with rfl | hmem
              · rw [hfs] at hst'
                injection hst' with h''
                obtain ⟨p₀, hp₀, hge⟩ := hacc
                exact h'' ▸ le_trans (hB p₀ hp₀) hge
              · exact hC e' hmem st' hst'

theorem asyncTurnOn_absent_idem (now : Int) (s : SwitchState) :
    asyncTurnOn now .manual none (asyncTurnOn now .manual none s) =
      asyncTurnOn now .manual none s := by
  by_cases hdm : s.defaultMinutes ≤ 0 <;>
    simp [asyncTurnOn, scheduleExpiration, startTimer, hdm]

theorem onCmds_mem (now : Int) (l : List CalEvent) :
    ∀ c ∈ onCmds now l, c = SwitchCmd.turnOnSw := by
  induction l with
  | nil => intro c hc; cases hc
  | cons e rest ih =>
      intro c hc
      rw [onCmds] at hc
      rcases List.mem_append.mp hc with h | h
      · by_cases hb : activeB now e <;> simp [hb] at h; exact h
      · exact ih c h

theorem onCmds_ne_nil (now : Int) (l : List CalEvent) (e : CalEvent)
    (he : e ∈ l) (hb : activeB now e = true) : onCmds now l ≠ [] := by
  induction l with
  | nil => cases he
  | cons e₀ rest ih =>
      rw [onCmds]
      rcases List.mem_cons.mp he with rfl | hmem
      · simp [hb]
      · intro hcontra
        rcases List.append_eq_nil.mp hcontra with ⟨_, h2⟩
        exact ih hmem h2

theorem applySwitchCmds_all_on (now : Int) (cs : List SwitchCmd)
    (hall : ∀ c ∈ cs, c = SwitchCmd.turnOnSw) (hne : cs ≠ []) :
    ∀ s : SwitchState,
      applySwitchCmds now s cs = asyncTurnOn now .manual none s := by
  induction cs with
  | nil => cases hne rfl
  | cons c rest ih =>
      intro s
      have hc : c = SwitchCmd.turnOnSw := hall c (List.mem_cons_self _ _)
      subst hc
      have hstep :
          applySwitchCmds now s (SwitchCmd.turnOnSw :: rest) =
            applySwitchCmds now (asyncTurnOn now .manual none s) rest := rfl
      cases rest with
      | nil => simp [applySwitchCmds, applySwitchCmd]
      | cons c' rest' =>
          rw [hstep,
            ih (fun c hc => hall c (List.mem_cons_of_mem _ hc)) (by simp),
            asyncTurnOn_absent_idem]

theorem tickCmds_swOff (modeKey : String) (now : Int) (evs : List CalEvent) :
    tickCmds modeKey now false false evs = onCmds now (myEvents modeKey evs) := by
  rw [tickCmds]
  have h := tickScanList_cmds_off now (myEvents modeKey evs) ⟨none, none, []⟩
  simp only [tickScan, Bool.and_false, Bool.false_eq_true, if_false]
  simpa using h

theorem scanUpdate_policy (uid : String) (data : UpdatePayload)
    (evs : List CalEvent) (e : CalEvent)
    (hl : lookupEvent "no_tachnun" uid evs = some e)
    (hf : e.extra.linkedFromBris = true) :
    scanUpdate "no_tachnun" uid data evs = .policy := by
  induction evs with
  | nil => cases hl
  | cons e₀ rest ih =>
      rw [lookupEvent] at hl
      rw [scanUpdate]
      by_cases hc : (e₀.uid == uid && e₀.modeKey == "no_tachnun") = true
      · rw [if_pos hc] at hl
        rw [if_pos hc]
        injection hl with hl'
        subst hl'
        simp [hf]
      · rw [if_neg hc] at hl
        rw [if_neg hc, ih hl]

theorem runLink_inactive_flagFalse (n : Nat) (w : LinkWorld)
    (hw : w.linkedNtOn = false) :
    runLink w (List.replicate n (LinkAct.tick false)) = (w, []) := by
  induction n with
  | zero => rfl
  | succ n ih =>
      rw [List.replicate_succ, runLink]
      have hstep : linkStep w (LinkAct.tick false) = (w, []) := by
        simp [linkStep, linkTickBranch, hw]
      rw [hstep, ih]
      rfl

theorem runLink_inactive_count (n : Nat) (w : LinkWorld) :
    countOffNt
      (runLink w (List.replicate (n + 1) (LinkAct.tick false))).2 =
      (if w.linkedNtOn && w.ntOn then 1 else 0) := by
  rw [List.replicate_succ, runLink]
  by_cases hf : w.linkedNtOn = true
  · by_cases ho : w.ntOn = true
    · have hstep :
          linkStep w (LinkAct.tick false) =
            ({ w with ntOn := false, linkedNtOn := false },
             [SwitchCmd.turnOffNt]) := by
        simp [linkStep, linkTickBranch, hf, ho]
      rw [hstep, runLink_inactive_flagFalse n _ rfl]
      simp [countOffNt, hf, ho]
    · have ho' : w.ntOn = false := by simpa using ho
      have hstep :
          linkStep w (LinkAct.tick false) =
            ({ w with linkedNtOn := false }, []) := by
        simp [linkStep, linkTickBranch, hf, ho']
      rw [hstep, runLink_inactive_flagFalse n _ rfl]
      simp [countOffNt, ho']
  · have hf' : w.linkedNtOn = false := by simpa using hf
    have hstep : linkStep w (LinkAct.tick false) = (w, []) := by
      simp [linkStep, linkTickBranch, hf']
    rw [hstep, runLink_inactive_flagFalse n w hf']
    simp [countOffNt, hf']

theorem applyUpdate_fixed (data : UpdatePayload) (e : CalEvent) :
    (applyUpdate data e).uid = e.uid ∧
    (applyUpdate data e).modeKey = e.modeKey ∧
    (applyUpdate data e).extra = e.extra := by
  obtain ⟨s?, st?, en?⟩ := data
  cases s? <;> cases st? <;> cases en? <;> exact ⟨rfl, rfl, rfl⟩

/-! ## Claims -/

/-- C2: the claim states that for a mode with no stored calendar events and
override off, after `turn_on(minutes=10)` the switch stays ON, surviving
intervening reconciliation ticks, until the timer fires at +10 minutes
(`controlled_by=timer`), a second expiry being a no-op.  Evaluating the
code: `turn_on(minutes=10)` indeed arms a 10-minute timer (`expire_at` at
+600000 ms), and the timer path behaves as claimed — but a reconciliation
tick at +30 s (< 10 min), seeing no active event and the switch on, turns
the switch OFF via a bare `switch.turn_off` service call (`controlled_by`
becomes `manual`), so the switch does not survive the tick.  This theorem
evaluates the code at that failing input. -/
theorem C2_tick_kills_manual_timed_on :
    (asyncTurnOn 0 .manual (some (some 10))
        ⟨false, none, .manual, none, 0⟩).isOn = true ∧
    (asyncTurnOn 0 .manual (some (some 10))
        ⟨false, none, .manual, none, 0⟩).expireAt = some 600000 ∧
    ((30000 : Int) < 600000) ∧
    tickCmds "guest_room" 30000 false true [] = [SwitchCmd.turnOffSw] ∧
    applySwitchCmds 30000
        (asyncTurnOn 0 .manual (some (some 10))
          ⟨false, none, .manual, none, 0⟩)
        (tickCmds "guest_room" 30000 false true []) =
      ⟨false, none, .manual, none, 0⟩ ∧
    timerFire (asyncTurnOn 0 .manual (some (some 10))
        ⟨false, none, .manual, none, 0⟩) =
      ⟨false, none, .timer, none, 0⟩ ∧
    timerFire (timerFire (asyncTurnOn 0 .manual (some (some 10))
        ⟨false, none, .manual, none, 0⟩)) =
      timerFire (asyncTurnOn 0 .manual (some (some 10))
        ⟨false, none, .manual, none, 0⟩) := by
  decide

/-- C3 counterexample: the claim states that `turn_on` with the `minutes`
argument absent yields ON-INDEFINITE (`expire_at` unset, no armed timer).
In the code an absent `minutes` falls back to `default_minutes`: with
`default_minutes = 5` the resulting state is ON-TIMED at +5 minutes. -/
theorem C3_counterexample :
    (asyncTurnOn 0 .manual none ⟨false, none, .manual, none, 5⟩).expireAt =
      some 300000 ∧
    (asyncTurnOn 0 .manual none
        ⟨false, none, .manual, none, 5⟩).timerFireAt = some 300000 := by
  decide

/-- C3 (amended): `turn_on` with `minutes = 0` or an explicit `None`
yields ON-INDEFINITE; with `minutes` absent it falls back to
`default_minutes` (ON-TIMED at `now + default_minutes` when positive,
ON-INDEFINITE otherwise); only with `minutes = m > 0` — explicit or via the
default — does it yield ON-TIMED with `expire_at = now + m` and a timer
armed by cancel-then-insert (the previous timer handle is dropped and the
single new one fires at `expire_at`). -/
theorem C3_amended_turn_on_semantics (now : Int) (cb : ControlledBy)
    (s : SwitchState) (m : Int) (hm : 0 < m) :
    asyncTurnOn now cb (some (some 0)) s =
      { s with isOn := true, controlledBy := cb,
               expireAt := none, timerFireAt := none } ∧
    asyncTurnOn now cb (some none) s =
      { s with isOn := true, controlledBy := cb,
               expireAt := none, timerFireAt := none } ∧
    asyncTurnOn now cb none s =
      (if s.defaultMinutes ≤ 0 then
        { s with isOn := true, controlledBy := cb,
                 expireAt := none, timerFireAt := none }
       else
        { s with isOn := true, controlledBy := cb,
                 expireAt := some (now + s.defaultMinutes * 60000),
                 timerFireAt := some (now + s.defaultMinutes * 60000) }) ∧
    asyncTurnOn now cb (some (some m)) s =
      { s with isOn := true, controlledBy := cb,
               expireAt := some (now + m * 60000),
               timerFireAt := some (now + m * 60000) } := by
  refine ⟨?_, ?_, ?_, ?_⟩
  · simp [asyncTurnOn, scheduleExpiration]
  · simp [asyncTurnOn, scheduleExpiration]
  · by_cases hdm : s.defaultMinutes ≤ 0
    · simp [asyncTurnOn, scheduleExpiration, hdm]
    · have h0 : (0 : Int) < s.defaultMinutes := not_le.mp hdm
      have h1 : (1000 : Int) ≤ s.defaultMinutes * 60000 := by nlinarith
      simp only [asyncTurnOn, scheduleExpiration, startTimer, hdm, if_neg,
        if_false]
      have hmax : now + max (1000 : Int)
          (now + s.defaultMinutes * 60000 - now) =
          now + s.defaultMinutes * 60000 := by omega
      rw [hmax]
  · have hm' : ¬ (m ≤ 0) := not_le.mpr hm
    have h1 : (1000 : Int) ≤ m * 60000 := by nlinarith
    simp only [asyncTurnOn, scheduleExpiration, startTimer, hm', if_neg,
      if_false]
    have hmax : now + max (1000 : Int) (now + m * 60000 - now) =
        now + m * 60000 := by omega
    rw [hmax]

/-- C3 witness: instantiates the amended theorem at `minutes = 7`,
`default_minutes = 5`. -/
theorem C3_amended_witness :
    (0 : Int) < 7 ∧
    asyncTurnOn 0 .manual (some (some 7)) ⟨false, none, .manual, none, 5⟩ =
      ⟨true, some 420000, .manual, some 420000, 5⟩ := by
  refine ⟨by norm_num, ?_⟩
  exact ((C3_amended_turn_on_semantics 0 .manual
    ⟨false, none, .manual, none, 5⟩ 7 (by norm_num)).2.2.2).trans (by decide)

/-- C4 counterexample: the claim states that a restored ON state with
`expire_at` strictly in the future yields ON-TIMED with a re-armed timer.
With `expire_at` 500 ms in the future (strictly future, but remaining
time not greater than one second) the code turns the switch OFF
immediately instead. -/
theorem C4_counterexample :
    (0 : Int) < 500 ∧
    restoreOnStart 0 0 (some ⟨true, some 500, .manual⟩) =
      ⟨⟨false, none, .manual, none, 0⟩, false⟩ := by
  decide

/-- C4 (amended): restore-on-start semantics: `is_on=false` yields OFF
(the parsed `expires_at` attribute is kept as loaded); `is_on=true` with
no `expires_at` yields ON-INDEFINITE; `is_on=true` with `expire_at` more
than one second in the future yields ON-TIMED with the timer re-armed to
fire at the persisted `expire_at` (the remaining duration, not the full
original one); `is_on=true` with `expire_at` within one second or already
passed yields immediate OFF; no persisted state yields OFF. -/
theorem C4_amended_restore_semantics (now dm : Int) (p : PersistedSwitch)
    (e : Int) :
    (p.isOn = false →
      restoreOnStart now dm (some p) =
        ⟨⟨false, p.expiresAt, p.controlledBy, none, dm⟩, false⟩) ∧
    (p.isOn = true → p.expiresAt = none →
      restoreOnStart now dm (some p) =
        ⟨⟨true, none, p.controlledBy, none, dm⟩, true⟩) ∧
    (p.isOn = true → p.expiresAt = some e → now + 1000 < e →
      restoreOnStart now dm (some p) =
        ⟨⟨true, some e, p.controlledBy, some e, dm⟩, true⟩) ∧
    (p.isOn = true → p.expiresAt = some e → e ≤ now + 1000 →
      restoreOnStart now dm (some p) =
        ⟨⟨false, none, p.controlledBy, none, dm⟩, false⟩) ∧
    restoreOnStart now dm none =
      ⟨⟨false, none, .manual, none, dm⟩, false⟩ := by
  refine ⟨?_, ?_, ?_, ?_, rfl⟩
  · intro h
    simp [restoreOnStart, h]
  · intro h1 h2
    simp [restoreOnStart, h1, h2]
  · intro h1 h2 h3
    have hgt : e > now := by omega
    have hrem : e - now > 1000 := by omega
    simp only [restoreOnStart, h1, h2, if_pos, hgt, hrem, startTimer]
    have hmax : now + max (1000 : Int) (e - now) = e := by omega
    rw [hmax]
  · intro h1 h2 h3
    by_cases hgt : e > now
    · have hrem : ¬ (e - now > 1000) := by omega
      simp [restoreOnStart, h1, h2, hgt, hrem]
    · simp [restoreOnStart, h1, h2, hgt]

/-- C4 witness: instantiates the amended theorem at a persisted ON-TIMED
state with 5 minutes remaining. -/
theorem C4_amended_witness :
    (0 : Int) + 1000 < 300000 ∧
    restoreOnStart 0 7 (some ⟨true, some 300000, .timer⟩) =
      ⟨⟨true, some 300000, .timer, some 300000, 7⟩, true⟩ := by
  refine ⟨by norm_num, ?_⟩
  exact (C4_amended_restore_semantics 0 7 ⟨true, some 300000, .timer⟩
    300000).2.2.1 rfl rfl (by norm_num)

/-- C5: the claim states that every create AND every update whose
resulting endpoints would violate `end > start` (or leave an endpoint
missing/malformed) is rejected and leaves the store unchanged.  The code
validates only `async_create_event`; `async_update_event` assigns the
coerced endpoints with no range check, so an update can store
`end ≤ start` and even a `None` endpoint.  This theorem evaluates the
code at the failing inputs: updating the event `[10000, 20000]` with
`end := 5000` is accepted and persisted with `end < start`, updating with
a malformed `start` stores `start = None`, while the analogous create is
rejected. -/
theorem C5_update_skips_range_validation :
    asyncUpdateEvent false "home" "u1" ⟨none, none, some (some 5000)⟩
        [⟨"u1", "home", some 10000, some 20000, "Ev", EventExtra.empty⟩] =
      ⟨[⟨"u1", "home", some 10000, some 5000, "Ev", EventExtra.empty⟩],
       [[⟨"u1", "home", some 10000, some 5000, "Ev", EventExtra.empty⟩]],
       .ok⟩ ∧
    ((5000 : Int) ≤ 10000) ∧
    asyncUpdateEvent false "home" "u1" ⟨none, some none, none⟩
        [⟨"u1", "home", some 10000, some 20000, "Ev", EventExtra.empty⟩] =
      ⟨[⟨"u1", "home", none, some 20000, "Ev", EventExtra.empty⟩],
       [[⟨"u1", "home", none, some 20000, "Ev", EventExtra.empty⟩]],
       .ok⟩ ∧
    asyncCreateEvent false "home" "u2" "unused" (some 10000) (some 5000)
        "Ev" [] =
      ⟨[], [], .validationError⟩ := by
  decide

/-- C1 counterexample: the claim states that a tick with override off, an
active event, and the switch off turns the switch ON with
`controlled_by=calendar` and no expiration, ignoring `default_minutes`.
The tick issues a bare `switch.turn_on` service call with no service data,
so `ModeSwitch.async_turn_on` runs with empty `kwargs`: `controlled_by`
defaults to `"manual"` and `minutes` falls back to `default_minutes`.
With `default_minutes = 1` the resulting state is ON-TIMED with
`controlled_by = manual`. -/
theorem C1_counterexample :
    (applySwitchCmds 10 ⟨false, none, .manual, none, 1⟩
        (tickCmds "home" 10 false false
          [⟨"a", "home", some 3, some 20, "e1", EventExtra.empty⟩])).controlledBy ≠
      ControlledBy.calendar ∧
    (applySwitchCmds 10 ⟨false, none, .manual, none, 1⟩
        (tickCmds "home" 10 false false
          [⟨"a", "home", some 3, some 20, "e1", EventExtra.empty⟩])).expireAt ≠
      none := by
  decide

/-- C1 (amended): for every reconciliation tick of a mode whose override
is off, where an active event exists and the switch is read as off, the
tick turns the switch on through a bare `switch.turn_on` service call
with no service data: the resulting switch state equals
`async_turn_on` with empty `kwargs` — ON with `controlled_by = manual`
(not `calendar`) and `expire_at` derived from `default_minutes`
(`now + default_minutes` when positive, unset otherwise; `default_minutes`
is not ignored). -/
theorem C1_amended_tick_on_semantics (modeKey : String)
    (evs : List CalEvent) (now : Int) (s : SwitchState)
    (hoff : s.isOn = false)
    (hact : ∃ e ∈ myEvents modeKey evs, activeB now e = true) :
    applySwitchCmds now s (tickCmds modeKey now false false evs) =
      asyncTurnOn now .manual none s ∧
    (applySwitchCmds now s (tickCmds modeKey now false false evs)).isOn =
      true ∧
    (applySwitchCmds now s
        (tickCmds modeKey now false false evs)).controlledBy =
      ControlledBy.manual ∧
    (applySwitchCmds now s (tickCmds modeKey now false false evs)).expireAt =
      (if s.defaultMinutes ≤ 0 then none
       else some (now + s.defaultMinutes * 60000)) := by
  obtain ⟨e, he, hb⟩ := hact
  have hne : onCmds now (myEvents modeKey evs) ≠ [] :=
    onCmds_ne_nil now _ e he hb
  have happ :
      applySwitchCmds now s (tickCmds modeKey now false false evs) =
        asyncTurnOn now .manual none s := by
    rw [tickCmds_swOff]
    exact applySwitchCmds_all_on now _ (onCmds_mem now _) hne s
  refine ⟨happ, ?_, ?_, ?_⟩ <;> rw [happ] <;>
    by_cases hdm : s.defaultMinutes ≤ 0 <;>
    simp [asyncTurnOn, scheduleExpiration, startTimer, hdm]

/-- C1 witness: instantiates the amended theorem at a one-event store with
an active event at tick time 10 and `default_minutes = 1`. -/
theorem C1_amended_witness :
    ((⟨false, none, .manual, none, 1⟩ : SwitchState).isOn = false) ∧
    (∃ e ∈ myEvents "home"
        [⟨"a", "home", some 3, some 20, "e1", EventExtra.empty⟩],
      activeB 10 e = true) ∧
    applySwitchCmds 10 ⟨false, none, .manual, none, 1⟩
        (tickCmds "home" 10 false false
          [⟨"a", "home", some 3, some 20, "e1", EventExtra.empty⟩]) =
      asyncTurnOn 10 .manual none ⟨false, none, .manual, none, 1⟩ := by
  exact ⟨rfl, by decide,
    (C1_amended_tick_on_semantics "home" _ 10 _ rfl (by decide)).1⟩

/-- C6 counterexample: the claim states that the computed active event
breaks ties among events whose windows contain `now` by earliest start,
then store order.  With two overlapping events stored in order
`[start 3, start 5]` at `now = 10`, the loop keeps overwriting `active`,
so the code picks the *last* stored containing event (start 5), while the
claimed rule picks the earliest start (start 3). -/
theorem C6_counterexample :
    (tickScan "home" 10 false false
        [⟨"a", "home", some 3, some 20, "e1", EventExtra.empty⟩,
         ⟨"b", "home", some 5, some 20, "e2", EventExtra.empty⟩]).active =
      some ⟨"b", "home", some 5, some 20, "e2", EventExtra.empty⟩ ∧
    activeSpec "home" 10
        [⟨"a", "home", some 3, some 20, "e1", EventExtra.empty⟩,
         ⟨"b", "home", some 5, some 20, "e2", EventExtra.empty⟩] =
      some ⟨"a", "home", some 3, some 20, "e1", EventExtra.empty⟩ ∧
    (tickScan "home" 10 false false
        [⟨"a", "home", some 3, some 20, "e1", EventExtra.empty⟩,
         ⟨"b", "home", some 5, some 20, "e2", EventExtra.empty⟩]).active ≠
      activeSpec "home" 10
        [⟨"a", "home", some 3, some 20, "e1", EventExtra.empty⟩,
         ⟨"b", "home", some 5, some 20, "e2", EventExtra.empty⟩] := by
  decide

/-- C6 (amended): at every reconciliation tick, the computed active event
is the *last* event in store order among this mode's events whose
(parsable) window contains `now` — ties are broken by latest store
position, not by earliest start; and the computed next event is a stored
event of this mode with a parsable window and the minimal start strictly
greater than `now` (no candidate exists exactly when `nextUp` is none). -/
theorem C6_amended_active_next (modeKey : String) (now : Int)
    (ov sw : Bool) (evs : List CalEvent) :
    (tickScan modeKey now ov sw evs).active =
      ((myEvents modeKey evs).filter (fun e => activeB now e)).getLast? ∧
    (∀ st e, (tickScan modeKey now ov sw evs).nextUp = some (st, e) →
      e ∈ myEvents modeKey evs ∧ futureStart now e = some st ∧
      ∀ e' ∈ myEvents modeKey evs, ∀ st',
        futureStart now e' = some st' → st ≤ st') ∧
    ((tickScan modeKey now ov sw evs).nextUp = none →
      ∀ e ∈ myEvents modeKey evs, futureStart now e = none) := by
  refine ⟨?_, ?_, ?_⟩
  · rw [tickScan, tickScanList_active, activeFold_getLast]
    cases h :
        ((myEvents modeKey evs).filter (fun e => activeB now e)).getLast? <;>
      simp [orO, h]
  · intro st e hn
    rw [tickScan, tickScanList_nextUp] at hn
    have h' := nextUpFold_some now (myEvents modeKey evs) none st e hn
    rcases h'.1 with h'' | ⟨hm, hf⟩
    · cases h''
    · exact ⟨hm, hf, h'.2.2⟩
  · intro hn e he
    rw [tickScan, tickScanList_nextUp] at hn
    exact (nextUpFold_none now (myEvents modeKey evs) none hn).2 e he

/-- C6 witness: instantiates the amended theorem at a store with one
strictly future event. -/
theorem C6_amended_witness :
    (tickScan "home" 10 false false
        [⟨"c", "home", some 50, some 60, "f", EventExtra.empty⟩]).nextUp =
      some (50, ⟨"c", "home", some 50, some 60, "f", EventExtra.empty⟩) ∧
    (⟨"c", "home", some 50, some 60, "f", EventExtra.empty⟩ ∈
      myEvents "home"
        [⟨"c", "home", some 50, some 60, "f", EventExtra.empty⟩] ∧
     futureStart 10 ⟨"c", "home", some 50, some 60, "f", EventExtra.empty⟩ =
       some 50 ∧
     ∀ e' ∈ myEvents "home"
         [⟨"c", "home", some 50, some 60, "f", EventExtra.empty⟩],
       ∀ st', futureStart 10 e' = some st' → 50 ≤ st') := by
  exact ⟨by decide,
    (C6_amended_active_next "home" 10 false false _).2.1 50 _ (by decide)⟩

/-- C7 counterexample: the claim states that for every mutation of a bris
event with linking enabled, the linked No Tachnun operation is applied to
the store before the mutation's change notification is published, so no
subscriber observes a bris event without its counterpart.  In the code
`_add_event_internal` persists and dispatches `SIGNAL_EVENTS_UPDATED`
*before* calling `_sync_bris_to_no_tachnun_create`: the first published
snapshot of a bris create contains the bris event and no event linked to
it. -/
theorem C7_counterexample :
    ¬ (∀ p ∈ (asyncCreateEvent true "bris" "b1" "n1" (some 0) (some 10)
          "Levi" []).published,
        (∃ b ∈ p, b.uid = "b1" ∧ b.modeKey = "bris") →
        ∃ m ∈ p, m.extra.brisEventUid = some "b1") := by
  decide

/-- C7 (amended): for every mutation of a bris event with linking
enabled, the Cross-Mode Link operation is applied to the store *after*
the triggering mutation's change notification has been published, as a
separate persisted step with its own notification: the first published
snapshot shows the source mutation with the linked counterpart not yet
applied, and only the final store/notification carries the link result
(create appends the linked event afterwards; update mirrors the linked
event afterwards; delete removes the linked event afterwards). -/
theorem C7_amended_link_after_notification (evs : List CalEvent)
    (uid ntUid sm : String) (st en : Int) (hen : st < en)
    (b n : CalEvent) (data : UpdatePayload)
    (hbm : b.modeKey = "bris") (hbu : b.uid ≠ "")
    (hnm : n.modeKey = "no_tachnun")
    (hlink : n.extra.brisEventUid = some b.uid)
    (hdata : data ≠ ⟨none, none, none⟩) :
    asyncCreateEvent true "bris" uid ntUid (some st) (some en) sm evs =
      ⟨(evs ++ [⟨uid, "bris", some st, some en, sm, EventExtra.empty⟩]) ++
         [⟨ntUid, "no_tachnun", some st, some en, "Bris: " ++ sm,
           ⟨true, some uid⟩⟩],
       [evs ++ [⟨uid, "bris", some st, some en, sm, EventExtra.empty⟩],
        (evs ++ [⟨uid, "bris", some st, some en, sm, EventExtra.empty⟩]) ++
          [⟨ntUid, "no_tachnun", some st, some en, "Bris: " ++ sm,
            ⟨true, some uid⟩⟩]],
       .ok⟩ ∧
    asyncUpdateEvent true "bris" b.uid data [b, n] =
      ⟨[applyUpdate data b,
        { n with
          start := (applyUpdate data b).start,
          stop := (applyUpdate data b).stop,
          summary := "Bris: " ++ (applyUpdate data b).summary }],
       [[applyUpdate data b, n],
        [applyUpdate data b,
         { n with
           start := (applyUpdate data b).start,
           stop := (applyUpdate data b).stop,
           summary := "Bris: " ++ (applyUpdate data b).summary }]],
       .ok⟩ ∧
    asyncDeleteEvent true "bris" b.uid [b, n] =
      ⟨[], [[n], []], .ok⟩ := by
  obtain ⟨hu, hmk, hex⟩ := applyUpdate_fixed data b
  have hen' : ¬ (en ≤ st) := not_le.mpr hen
  refine ⟨?_, ?_, ?_⟩
  · simp [asyncCreateEvent, addEventInternal, syncBrisToNoTachnunCreate,
      hen']
  · simp [asyncUpdateEvent, scanUpdate, syncBrisToNoTachnunUpdate,
      mirrorLinked, hbm, hbu, hnm, hlink, hdata, hu, hmk]
  · simp [asyncDeleteEvent, lookupEvent, syncBrisToNoTachnunDelete,
      hbm, hbu, hnm, hlink]

/-- C7 witness: instantiates the amended theorem at a concrete bris
event, linked event, and update payload. -/
theorem C7_amended_witness :
    (0 : Int) < 10 ∧
    asyncCreateEvent true "bris" "b1" "n1" (some 0) (some 10) "Levi" [] =
      ⟨[⟨"b1", "bris", some 0, some 10, "Levi", EventExtra.empty⟩,
        ⟨"n1", "no_tachnun", some 0, some 10, "Bris: Levi",
          ⟨true, some "b1"⟩⟩],
       [[⟨"b1", "bris", some 0, some 10, "Levi", EventExtra.empty⟩],
        [⟨"b1", "bris", some 0, some 10, "Levi", EventExtra.empty⟩,
         ⟨"n1", "no_tachnun", some 0, some 10, "Bris: Levi",
           ⟨true, some "b1"⟩⟩]],
       .ok⟩ ∧
    asyncDeleteEvent true "bris" "b1"
        [⟨"b1", "bris", some 0, some 10, "Levi", EventExtra.empty⟩,
         ⟨"n1", "no_tachnun", some 0, some 10, "Bris: Levi",
           ⟨true, some "b1"⟩⟩] =
      ⟨[], [[⟨"n1", "no_tachnun", some 0, some 10, "Bris: Levi",
              ⟨true, some "b1"⟩⟩], []], .ok⟩ := by
  have h := C7_amended_link_after_notification []
    "b1" "n1" "Levi" 0 10 (by norm_num)
    ⟨"b1", "bris", some 0, some 10, "Levi", EventExtra.empty⟩
    ⟨"n1", "no_tachnun", some 0, some 10, "Bris: Levi", ⟨true, some "b1"⟩⟩
    ⟨some "Moshe", none, none⟩ rfl (by decide) rfl rfl (by decide)
  exact ⟨by norm_num, h.1.trans (by decide), h.2.2.trans (by decide)⟩

/-- C8 counterexample: the claim states that a No Tachnun switch turned ON
independently (manually) is never turned off by the link mechanism.  The
`_linked_nt_on` flag only records that some tick forced the switch on; it
is not cleared by an intervening manual OFF + manual ON.  In the trace
[active tick (forces NT on), manual off, manual on, inactive tick] the
final tick issues `turn_off` against an NT switch whose current ON was set
manually. -/
theorem C8_counterexample :
    runLink ⟨false, false, false⟩
        [LinkAct.tick true, LinkAct.manualOff, LinkAct.manualOn] =
      (⟨true, true, true⟩, [SwitchCmd.turnOnNt]) ∧
    (⟨true, true, true⟩ : LinkWorld).ntManual = true ∧
    linkStep ⟨true, true, true⟩ (LinkAct.tick false) =
      (⟨false, true, false⟩, [SwitchCmd.turnOffNt]) := by
  decide

/-- C8 (amended): with linking enabled on the bris mode: while an active
bris event exists, a tick forces the No Tachnun switch ON exactly when it
is read as off (idempotent — no command when already on) and records the
force in `_linked_nt_on` only when it actually issued the command; across
any run of inactive ticks, exactly one `turn_off` is issued iff the flag
was set and the switch is on (the flag is cleared, so later inactive
ticks are no-ops); and a No Tachnun switch that was ON before the link
ever forced it (flag unset) is never touched when the event disappears.
A manual ON issued *after* the link forced the switch on within the same
active period can, however, be undone (see the counterexample). -/
theorem C8_amended_link_semantics (w : LinkWorld) (n : Nat) :
    (w.ntOn = true → linkStep w (LinkAct.tick true) = (w, [])) ∧
    (w.ntOn = false → linkStep w (LinkAct.tick true) =
      ({ w with ntOn := true, ntManual := false, linkedNtOn := true },
       [SwitchCmd.turnOnNt])) ∧
    (countOffNt
        (runLink w (List.replicate (n + 1) (LinkAct.tick false))).2 =
      (if w.linkedNtOn && w.ntOn then 1 else 0)) ∧
    (w.linkedNtOn = false →
      runLink w (List.replicate (n + 1) (LinkAct.tick false)) = (w, [])) := by
  refine ⟨?_, ?_, runLink_inactive_count n w, ?_⟩
  · intro h
    simp [linkStep, linkTickBranch, h]
  · intro h
    simp [linkStep, linkTickBranch, h]
  · intro h
    exact runLink_inactive_flagFalse (n + 1) w h

/-- C8 witness: instantiates the amended theorem at a world where the
link had forced the switch on, with one inactive tick. -/
theorem C8_amended_witness :
    ((⟨true, false, true⟩ : LinkWorld).ntOn = true) ∧
    linkStep ⟨true, false, true⟩ (LinkAct.tick true) =
      (⟨true, false, true⟩, []) ∧
    countOffNt
        (runLink ⟨true, false, true⟩
          (List.replicate 1 (LinkAct.tick false))).2 = 1 := by
  have h := C8_amended_link_semantics ⟨true, false, true⟩ 0
  exact ⟨rfl, h.1 rfl, h.2.2.1.trans (by decide)⟩

/-- C9: every update or delete addressed directly (through the
`no_tachnun` calendar entity, i.e. outside the Link component) to a
No Tachnun event whose `extra` carries `linked_from_bris = true` is
rejected with the PolicyError outcome ("Cannot edit/delete No Tachnun
event — it is linked from a Bris event"), publishes nothing, and leaves
the event store unchanged — for any state of the link option.  (The
non-empty-uid and non-empty-payload hypotheses keep the call from being
rejected earlier by the unrelated input-validation guards.) -/
theorem C9_linked_event_mutation_rejected (evs : List CalEvent)
    (uid : String) (data : UpdatePayload) (e : CalEvent) (le : Bool)
    (hu : uid ≠ "") (hl : lookupEvent "no_tachnun" uid evs = some e)
    (hf : e.extra.linkedFromBris = true)
    (hdata : data ≠ ⟨none, none, none⟩) :
    asyncUpdateEvent le "no_tachnun" uid data evs =
      ⟨evs, [], .policyError⟩ ∧
    asyncDeleteEvent le "no_tachnun" uid evs =
      ⟨evs, [], .policyError⟩ := by
  constructor
  · rw [asyncUpdateEvent]
    simp [hu, hdata, scanUpdate_policy uid data evs e hl hf]
  · rw [asyncDeleteEvent]
    simp [hu, hl, hf]

/-- C9 witness: instantiates the rejection theorem at a concrete linked
No Tachnun event. -/
theorem C9_linked_event_mutation_rejected_witness :
    asyncUpdateEvent true "no_tachnun" "n1" ⟨some "X", none, none⟩
        [⟨"n1", "no_tachnun", some 0, some 10, "Bris: Levi",
          ⟨true, some "b1"⟩⟩] =
      ⟨[⟨"n1", "no_tachnun", some 0, some 10, "Bris: Levi",
          ⟨true, some "b1"⟩⟩], [], .policyError⟩ ∧
    asyncDeleteEvent true "no_tachnun" "n1"
        [⟨"n1", "no_tachnun", some 0, some 10, "Bris: Levi",
          ⟨true, some "b1"⟩⟩] =
      ⟨[⟨"n1", "no_tachnun", some 0, some 10, "Bris: Levi",
          ⟨true, some "b1"⟩⟩], [], .policyError⟩ := by
  exact C9_linked_event_mutation_rejected _ "n1" ⟨some "X", none, none⟩
    ⟨"n1", "no_tachnun", some 0, some 10, "Bris: Levi", ⟨true, some "b1"⟩⟩
    true (by decide) (by decide) rfl (by decide)

/-- C10: direct edit or delete of a link-derived No Tachnun event is
refused for every state of the link option, while cascade deletion from a
bris source event runs only when the option is enabled at delete time:
deleting the bris event with the option disabled removes only the bris
event and leaves the linked No Tachnun event stored, after which every
update or delete addressed to it through the calendar interface is still
refused with PolicyError (so it cannot be removed that way); with the
option enabled the same delete also removes the linked event. -/
theorem C10_orphaned_linked_event (b n : CalEvent) (data : UpdatePayload)
    (hbm : b.modeKey = "bris") (hbu : b.uid ≠ "")
    (hnm : n.modeKey = "no_tachnun") (hnu : n.uid ≠ "")
    (hlf : n.extra.linkedFromBris = true)
    (hbl : n.extra.brisEventUid = some b.uid)
    (hdata : data ≠ ⟨none, none, none⟩) :
    asyncDeleteEvent false "bris" b.uid [b, n] = ⟨[n], [[n]], .ok⟩ ∧
    (∀ le : Bool,
      asyncDeleteEvent le "no_tachnun" n.uid [n] =
        ⟨[n], [], .policyError⟩ ∧
      asyncUpdateEvent le "no_tachnun" n.uid data [n] =
        ⟨[n], [], .policyError⟩) ∧
    (asyncDeleteEvent true "bris" b.uid [b, n]).events = [] := by
  refine ⟨?_, ?_, ?_⟩
  · simp [asyncDeleteEvent, lookupEvent, syncBrisToNoTachnunDelete,
      hbm, hbu, hnm, hbl]
  · intro le
    constructor
    · rw [asyncDeleteEvent]
      simp [hnu, lookupEvent, hnm, hlf]
    · rw [asyncUpdateEvent]
      simp [hnu, hdata, scanUpdate, hnm, hlf]
  · simp [asyncDeleteEvent, lookupEvent, syncBrisToNoTachnunDelete,
      hbm, hbu, hnm, hbl]

/-- C10 witness: instantiates the orphaning theorem at a concrete bris
event and its linked No Tachnun event. -/
theorem C10_orphaned_linked_event_witness :
    asyncDeleteEvent false "bris" "b1"
        [⟨"b1", "bris", some 0, some 10, "Levi", EventExtra.empty⟩,
         ⟨"n1", "no_tachnun", some 0, some 10, "Bris: Levi",
           ⟨true, some "b1"⟩⟩] =
      ⟨[⟨"n1", "no_tachnun", some 0, some 10, "Bris: Levi",
          ⟨true, some "b1"⟩⟩],
       [[⟨"n1", "no_tachnun", some 0, some 10, "Bris: Levi",
           ⟨true, some "b1"⟩⟩]], .ok⟩ ∧
    asyncDeleteEvent true "no_tachnun" "n1"
        [⟨"n1", "no_tachnun", some 0, some 10, "Bris: Levi",
          ⟨true, some "b1"⟩⟩] =
      ⟨[⟨"n1", "no_tachnun", some 0, some 10, "Bris: Levi",
          ⟨true, some "b1"⟩⟩], [], .policyError⟩ ∧
    (asyncDeleteEvent true "bris" "b1"
        [⟨"b1", "bris", some 0, some 10, "Levi", EventExtra.empty⟩,
         ⟨"n1", "no_tachnun", some 0, some 10, "Bris: Levi",
           ⟨true, some "b1"⟩⟩]).events = [] := by
  have h := C10_orphaned_linked_event
    ⟨"b1", "bris", some 0, some 10, "Levi", EventExtra.empty⟩
    ⟨"n1", "no_tachnun", some 0, some 10, "Bris: Levi", ⟨true, some "b1"⟩⟩
    ⟨some "X", none, none⟩ rfl (by decide) rfl (by decide) rfl rfl
    (by decide)
  exact ⟨h.1, (h.2.1 true).1, h.2.2⟩

end ScheduleModes
